import Mathlib

/-!
Shallow embedding of the `udptest` UDP transport layer.

Bytes are modelled as `Nat` values (meaningful when `< 256`); machine
integers (`u32`) are `Nat` with explicit bounds; Rust `String` is a list of
Unicode scalar values (`List Char`), matching the invariant that a Rust
`String` is always valid UTF-8.

* `src/record.rs`: `Record`, `ParseError`, `Record.from_udp`, `Record.to_udp`.
* `src/udp.rs`: `UDP_MAX_PAYLOAD`, the blanket `FromUdpSource` impl
  (`fromUdpSource`), `Sender.send`, `Receiver.next`.

The UTF-8 encoder/decoder (`utf8EncodeChar`, `utf8Decode`) models Rust's
`str::as_bytes` / `String::from_utf8`, i.e. UTF-8 per RFC 3629: a decoded
sequence is accepted iff every scalar is in range (no overlong forms, no
surrogates, maximum `U+10FFFF`), which is exactly the check Rust's standard
library performs.
-/

deriving instance DecidableEq for Except

/-- `const UDP_MAX_PAYLOAD: usize = 508` from `src/udp.rs`. -/
def UDP_MAX_PAYLOAD : Nat := 508

/-- `u32::to_le_bytes`: the four little-endian bytes of a 32-bit value. -/
def u32ToLeBytes (n : Nat) : List Nat :=
  [n % 256, n / 256 % 256, n / 65536 % 256, n / 16777216 % 256]

/-- `u32::from_le_bytes` on a 4-byte buffer (little-endian). -/
def u32FromLeBytes (l : List Nat) : Nat :=
  l.getD 0 0 + 256 * l.getD 1 0 + 65536 * l.getD 2 0 + 16777216 * l.getD 3 0

/-- UTF-8 encoding of one Unicode scalar value (Rust `char::encode_utf8`). -/
def utf8EncodeChar (c : Char) : List Nat :=
  let n := c.toNat
  if n < 0x80 then [n]
  else if n < 0x800 then [0xC0 + n / 64, 0x80 + n % 64]
  else if n < 0x10000 then [0xE0 + n / 4096, 0x80 + n / 64 % 64, 0x80 + n % 64]
  else [0xF0 + n / 262144, 0x80 + n / 4096 % 64, 0x80 + n / 64 % 64, 0x80 + n % 64]

/-- UTF-8 encoding of a string (Rust `str::as_bytes` on a `String`). -/
def utf8Encode : List Char → List Nat
  | [] => []
  | c :: s => utf8EncodeChar c ++ utf8Encode s

/-- Decode one UTF-8-encoded Unicode scalar value from the front of a byte
buffer, returning the scalar and the remaining bytes. `some` exactly when
the buffer starts with a well-formed UTF-8 sequence (RFC 3629): no
overlong forms, no surrogates, maximum `U+10FFFF` -- exactly the
validation Rust's `String::from_utf8` performs. -/
def utf8DecodeChar (l : List Nat) : Option (Char × List Nat) :=
  match l with
  | [] => none
  | b0 :: bs =>
    if b0 < 0x80 then
      some (Char.ofNat b0, bs)
    else if b0 < 0xC0 then
      none
    else if b0 < 0xE0 then
      match bs with
      | b1 :: bs2 =>
        let n := (b0 - 0xC0) * 64 + (b1 - 0x80)
        if 0x80 ≤ b1 ∧ b1 < 0xC0 ∧ 0x80 ≤ n then some (Char.ofNat n, bs2)
        else none
      | [] => none
    else if b0 < 0xF0 then
      match bs with
      | b1 :: b2 :: bs2 =>
        let n := (b0 - 0xE0) * 4096 + (b1 - 0x80) * 64 + (b2 - 0x80)
        if 0x80 ≤ b1 ∧ b1 < 0xC0 ∧ 0x80 ≤ b2 ∧ b2 < 0xC0 ∧ 0x800 ≤ n ∧
            (n < 0xD800 ∨ 0xDFFF < n) then some (Char.ofNat n, bs2)
        else none
      | _ => none
    else if b0 < 0xF8 then
      match bs with
      | b1 :: b2 :: b3 :: bs2 =>
        let n := (b0 - 0xF0) * 262144 + (b1 - 0x80) * 4096 + (b2 - 0x80) * 64
          + (b3 - 0x80)
        if 0x80 ≤ b1 ∧ b1 < 0xC0 ∧ 0x80 ≤ b2 ∧ b2 < 0xC0 ∧ 0x80 ≤ b3 ∧ b3 < 0xC0 ∧
            0x10000 ≤ n ∧ n < 0x110000 then some (Char.ofNat n, bs2)
        else none
      | _ => none
    else none

/-- The validation loop of Rust `String::from_utf8`, decoding scalar after
scalar. The loop consumes at least one byte per step, so `fuel = l.length`
(as used by `utf8Decode`) always suffices; fuel only makes the structural
recursion explicit. -/
def utf8DecodeLoop : Nat → List Nat → Option (List Char)
  | _, [] => some []
  | 0, _ :: _ => none
  | fuel + 1, l =>
    match utf8DecodeChar l with
    | some (c, rest) => (utf8DecodeLoop fuel rest).map (fun s => c :: s)
    | none => none

/-- UTF-8 validation/decoding of a whole byte buffer
(Rust `String::from_utf8`): `some` exactly on well-formed UTF-8. -/
def utf8Decode (l : List Nat) : Option (List Char) :=
  utf8DecodeLoop l.length l

/-- `Record { id: u32, data: String }` from `src/record.rs`. -/
structure Record where
  id : Nat
  data : List Char
deriving DecidableEq, Repr

/-- `ParseError` from `src/record.rs`. `Invalid` carries the
`FromUtf8Error`, modelled by the offending byte buffer it wraps. -/
inductive ParseError where
  | Incomplete (n : Nat)
  | Invalid (bytes : List Nat)
deriving DecidableEq, Repr

/-- `Record::from_udp` from `src/record.rs`. -/
def Record.from_udp (buf : List Nat) : Except ParseError Record :=
  if buf.length < 4 then
    .error (.Incomplete buf.length)
  else
    let id := u32FromLeBytes (buf.take 4)
    match utf8Decode (buf.drop 4) with
    | some s => .ok ⟨id, s⟩
    | none => .error (.Invalid (buf.drop 4))

/-- `Record::to_udp` from `src/record.rs`: little-endian id bytes followed
by the raw UTF-8 bytes of `data`. -/
def Record.to_udp (r : Record) : List Nat :=
  u32ToLeBytes r.id ++ utf8Encode r.data

/-- `Error<T>` from `src/udp.rs`: the transport-level result error, either
an I/O error (modelled by an abstract `Nat` code) or a parse error. -/
inductive TransportError (ε : Type) where
  | Io (e : Nat)
  | ParseError (e : ε)
deriving DecidableEq, Repr

/-- The blanket `impl<T: FromUdp> FromUdpSource for T` from `src/udp.rs`:
`from_udp_source(buf, _) = from_udp(buf)`. The parser of the underlying
`FromUdp` impl is passed explicitly; the source address is a `Nat` stand-in
for `SocketAddr`. -/
def fromUdpSource {ε α : Type} (from_udp : List Nat → Except ε α)
    (buf : List Nat) (source : Nat) : Except ε α :=
  from_udp buf

/-- Observable outcome of `Sender::send`: the datagrams handed to
`sock.send` in order, the number of `warn!` notifications emitted, and the
returned `io::Result` (errors as abstract `Nat` codes). -/
structure SendResult where
  sent : List (List Nat)
  warnings : Nat
  result : Except Nat Unit
deriving DecidableEq, Repr

/-- The truncation step of `Sender::send` in `src/udp.rs`: an oversized
payload is cut to its first `UDP_MAX_PAYLOAD` bytes (`&item[..UDP_MAX_PAYLOAD]`),
any other payload is passed through unchanged. -/
def truncateToMax (p : List Nat) : List Nat :=
  if p.length > UDP_MAX_PAYLOAD then p.take UDP_MAX_PAYLOAD else p

/-- The `for item in iter` loop of `Sender::send` in `src/udp.rs`.
`net k` is the outcome the OS gives the `k`-th `sock.send` call (`none` =
success, `some e` = fail with error `e`); `k` is the index of the next
transmission attempt. Oversized payloads are truncated to
`UDP_MAX_PAYLOAD` with a warning; the loop stops at the first I/O error. -/
def sendItems : List (List Nat) → (Nat → Option Nat) → Nat → SendResult
  | [], _, _ => ⟨[], 0, .ok ()⟩
  | p :: ps, net, k =>
    let payload := truncateToMax p
    let w := if p.length > UDP_MAX_PAYLOAD then 1 else 0
    match net k with
    | some e => ⟨[], w, .error e⟩
    | none =>
      let rest := sendItems ps net (k + 1)
      ⟨payload :: rest.sent, w + rest.warnings, rest.result⟩

/-- `Sender::send` from `src/udp.rs`, generic over the serialisable item
type as in the source (`to_udp` passed explicitly). `connect` is the
outcome of `sock.connect(dest)`; on connect failure nothing is sent. -/
def Sender.send {α : Type} (to_udp : α → List Nat) (items : List α)
    (connect : Option Nat) (net : Nat → Option Nat) : SendResult :=
  match connect with
  | some e => ⟨[], 0, .error e⟩
  | none => sendItems (items.map to_udp) net 0

/-- One `recv_from` outcome offered by the OS to `Receiver::next`: either
an arriving datagram with its source address, or an I/O error (timeouts
and would-block included, as abstract `Nat` codes). -/
inductive RecvEvent where
  | datagram (data : List Nat) (src : Nat)
  | ioError (e : Nat)
deriving DecidableEq, Repr

/-- `sock.recv_from(&mut self.buf)` with the fixed 508-byte scratch buffer
of `Receiver`: a datagram is copied into the buffer, so at most the first
`UDP_MAX_PAYLOAD` bytes survive, and `(len, src)` is returned with
`len = min data.length UDP_MAX_PAYLOAD`; the slice `&buf[..len]` is the
returned byte list. -/
def recvFrom (ev : RecvEvent) : Except Nat (List Nat × Nat) :=
  match ev with
  | .datagram d src => .ok (d.take UDP_MAX_PAYLOAD, src)
  | .ioError e => .error e

/-- `<Receiver<T> as Iterator>::next` from `src/udp.rs`, generic over the
parseable item type: the address-aware parser is passed explicitly. -/
def Receiver.next {ε α : Type} (from_udp_source : List Nat → Nat → Except ε α)
    (ev : RecvEvent) : Option (Except (TransportError ε) α) :=
  match recvFrom ev with
  | .ok (bytes, src) =>
    some (match from_udp_source bytes src with
      | .ok v => .ok v
      | .error e => .error (.ParseError e))
  | .error e => some (.error (.Io e))

example : Record.from_udp [0, 0] = .error (.Incomplete 2) := by decide
example : Record.from_udp [1, 0, 0, 0, 114] = .ok ⟨1, ['r']⟩ := by decide
example : Record.from_udp [1, 0, 0, 0, 0xC3, 0x28] =
    .error (.Invalid [0xC3, 0x28]) := by decide
example : (Record.to_udp ⟨1, ['r']⟩) = [1, 0, 0, 0, 114] := by decide
example : utf8Decode (utf8Encode ['ᚻ', 'é', '🙂', 'a']) =
    some ['ᚻ', 'é', '🙂', 'a'] := by decide


theorem utf8DecodeChar_length_lt {l : List Nat} {c : Char} {rest : List Nat}
    (h : utf8DecodeChar l = some (c, rest)) : rest.length < l.length := by
  match l with
  | [] => simp [utf8DecodeChar] at h
  | b0 :: bs =>
    simp only [utf8DecodeChar] at h
    repeat' split at h
    all_goals simp_all
    all_goals simp +arith [List.length_cons]

theorem utf8DecodeLoop_fuel {f1 f2 : Nat} {l : List Nat}
    (h1 : l.length ≤ f1) (h2 : l.length ≤ f2) :
    utf8DecodeLoop f1 l = utf8DecodeLoop f2 l := by
  induction f1 generalizing f2 l with
  | zero =>
    have hl : l = [] := List.length_eq_zero.mp (Nat.le_zero.mp h1)
    subst hl
    cases f2 <;> rfl
  | succ f1 ih =>
    match l with
    | [] => cases f2 <;> rfl
    | b0 :: bs =>
      match f2 with
      | 0 => simp at h2
      | f2 + 1 =>
        cases hdc : utf8DecodeChar (b0 :: bs) with
        | none => simp only [utf8DecodeLoop, hdc]
        | some p =>
          obtain ⟨c, rest⟩ := p
          have hlt := utf8DecodeChar_length_lt hdc
          simp only [List.length_cons] at h1 h2 hlt
          simp only [utf8DecodeLoop, hdc]
          rw [ih (show rest.length ≤ f1 by omega) (show rest.length ≤ f2 by omega)]

theorem utf8Decode_step {l : List Nat} {c : Char} {rest : List Nat}
    (h : utf8DecodeChar l = some (c, rest)) :
    utf8Decode l = (utf8Decode rest).map (fun s => c :: s) := by
  match l with
  | [] => simp [utf8DecodeChar] at h
  | b0 :: bs =>
    have hlt := utf8DecodeChar_length_lt h
    simp only [List.length_cons] at hlt
    simp only [utf8Decode, List.length_cons, utf8DecodeLoop, h]
    rw [utf8DecodeLoop_fuel (show rest.length ≤ bs.length by omega)
      (show rest.length ≤ rest.length by omega)]

theorem utf8DecodeChar_encodeChar (c : Char) (tail : List Nat) :
    utf8DecodeChar (utf8EncodeChar c ++ tail) = some (c, tail) := by
  have hv : c.toNat < 0xD800 ∨ (0xDFFF < c.toNat ∧ c.toNat < 0x110000) := c.valid
  have hofNat : Char.ofNat c.toNat = c := Char.ofNat_toNat c
  by_cases h1 : c.toNat < 0x80
  · simp only [utf8EncodeChar, if_pos h1, List.cons_append, List.nil_append]
    simp only [utf8DecodeChar, if_pos h1, hofNat]
  · by_cases h2 : c.toNat < 0x800
    · simp only [utf8EncodeChar, if_neg h1, if_pos h2, List.cons_append,
        List.nil_append]
      simp only [utf8DecodeChar]
      rw [if_neg (by omega), if_neg (by omega), if_pos (by omega),
        if_pos (by omega)]
      have hval : (0xC0 + c.toNat / 64 - 0xC0) * 64 + (0x80 + c.toNat % 64 - 0x80)
          = c.toNat := by omega
      rw [hval, hofNat]
    · by_cases h3 : c.toNat < 0x10000
      · simp only [utf8EncodeChar, if_neg h1, if_neg h2, if_pos h3,
          List.cons_append, List.nil_append]
        simp only [utf8DecodeChar]
        rw [if_neg (by omega), if_neg (by omega), if_neg (by omega),
          if_pos (by omega), if_pos (by omega)]
        have hval : (0xE0 + c.toNat / 4096 - 0xE0) * 4096 +
            (0x80 + c.toNat / 64 % 64 - 0x80) * 64 + (0x80 + c.toNat % 64 - 0x80)
            = c.toNat := by omega
        rw [hval, hofNat]
      · simp only [utf8EncodeChar, if_neg h1, if_neg h2, if_neg h3,
          List.cons_append, List.nil_append]
        simp only [utf8DecodeChar]
        rw [if_neg (by omega), if_neg (by omega), if_neg (by omega),
          if_neg (by omega), if_pos (by omega), if_pos (by omega)]
        have hval : (0xF0 + c.toNat / 262144 - 0xF0) * 262144 +
            (0x80 + c.toNat / 4096 % 64 - 0x80) * 4096 +
            (0x80 + c.toNat / 64 % 64 - 0x80) * 64 + (0x80 + c.toNat % 64 - 0x80)
            = c.toNat := by omega
        rw [hval, hofNat]

theorem utf8Decode_encode_append (s : List Char) (tail : List Nat) :
    utf8Decode (utf8Encode s ++ tail) =
      (utf8Decode tail).map (fun t => s ++ t) := by
  induction s with
  | nil =>
    simp [utf8Encode]
  | cons c s ih =>
    rw [utf8Encode, List.append_assoc,
      utf8Decode_step (utf8DecodeChar_encodeChar c (utf8Encode s ++ tail)), ih,
      Option.map_map]
    rfl

theorem utf8Decode_utf8Encode (s : List Char) : utf8Decode (utf8Encode s) = some s := by
  have h := utf8Decode_encode_append s []
  simpa [utf8Decode, utf8DecodeLoop] using h

/-- C2: `Record::to_udp` never fails and returns the 4-byte little-endian
encoding of `id` followed by the raw UTF-8 bytes of `data`; its length is
exactly `4 + byte_length(data)`, hence always at least 4. (Totality is
inherent: `Record.to_udp` is a total function.) -/
theorem to_udp_shape (r : Record) :
    r.to_udp = u32ToLeBytes r.id ++ utf8Encode r.data ∧
    r.to_udp.length = 4 + (utf8Encode r.data).length ∧
    4 ≤ r.to_udp.length := by
  refine ⟨rfl, ?_, ?_⟩ <;>
    simp +arith [Record.to_udp, u32ToLeBytes, List.length_append]

/-- C4: parsing any byte buffer shorter than 4 bytes fails with
`ParseError::Incomplete` carrying exactly the buffer's length. -/
theorem from_udp_incomplete (buf : List Nat) (h : buf.length < 4) :
    Record.from_udp buf = .error (.Incomplete buf.length) := by
  simp [Record.from_udp, if_pos h]

/-- C4 witness: the 2-byte buffer `[0, 0]` fails with `Incomplete 2`. -/
theorem from_udp_incomplete_witness :
    Record.from_udp [0, 0] = .error (.Incomplete 2) :=
  from_udp_incomplete [0, 0] (by decide)

/-- C8: the blanket address-aware parser obtained from an address-unaware
one ignores the source address: it returns `from_udp buf` for every
address, so the result is independent of the address. -/
theorem fromUdpSource_ignores_address {ε α : Type}
    (from_udp : List Nat → Except ε α) (buf : List Nat) (a1 a2 : Nat) :
    fromUdpSource from_udp buf a1 = from_udp buf ∧
    fromUdpSource from_udp buf a1 = fromUdpSource from_udp buf a2 :=
  ⟨rfl, rfl⟩

/-- C9: sending an empty sequence (with a successful destination
association) succeeds and transmits zero datagrams. -/
theorem sender_send_empty {α : Type} (to_udp : α → List Nat)
    (connect : Option Nat) (net : Nat → Option Nat) (h : connect = none) :
    Sender.send to_udp ([] : List α) connect net = ⟨[], 0, .ok ()⟩ := by
  subst h
  rfl

/-- C9 witness: the concrete empty send over `Record.to_udp`. -/
theorem sender_send_empty_witness :
    Sender.send Record.to_udp ([] : List Record) none (fun _ => none) =
      ⟨[], 0, .ok ()⟩ :=
  sender_send_empty Record.to_udp none (fun _ => none) rfl

/-- C7: `Receiver::next` always yields `some` result: on a received
datagram it applies the address-aware parser to the received bytes and the
sender's address, yielding `Ok` on parser success and `Err(ParseError(..))`
on parser failure; on socket failure (timeouts included) it yields
`Err(Io(e))` with the underlying error. -/
theorem receiver_next_total {ε α : Type}
    (p : List Nat → Nat → Except ε α) (ev : RecvEvent) :
    (Receiver.next p ev).isSome = true ∧
    (∀ d src t, ev = .datagram d src → p (d.take UDP_MAX_PAYLOAD) src = .ok t →
      Receiver.next p ev = some (.ok t)) ∧
    (∀ d src e, ev = .datagram d src →
      p (d.take UDP_MAX_PAYLOAD) src = .error e →
      Receiver.next p ev = some (.error (.ParseError e))) ∧
    (∀ e, ev = .ioError e → Receiver.next p ev = some (.error (.Io e))) := by
  refine ⟨?_, ?_, ?_, ?_⟩
  · cases ev <;> simp [Receiver.next, recvFrom]
  · rintro d src t rfl hp
    simp [Receiver.next, recvFrom, hp]
  · rintro d src e rfl hp
    simp [Receiver.next, recvFrom, hp]
  · rintro e rfl
    simp [Receiver.next, recvFrom]

/-- C7 witness: an I/O failure (such as a timeout) with code 3 is yielded
as `some (Err(Io 3))`. -/
theorem receiver_next_total_witness :
    Receiver.next (fromUdpSource Record.from_udp) (.ioError 3) =
      some (.error (.Io 3)) :=
  (receiver_next_total (fromUdpSource Record.from_udp) (.ioError 3)).2.2.2 3 rfl

/-- C10: the receiver's scratch buffer is fixed at 508 bytes, so the parser
sees at most the first `UDP_MAX_PAYLOAD` bytes of a datagram: a longer
datagram is silently cut to its first 508 bytes, indistinguishable from
the arrival of that 508-byte datagram. -/
theorem receiver_truncates_input {ε α : Type}
    (p : List Nat → Nat → Except ε α) (d : List Nat) (src : Nat)
    (h : UDP_MAX_PAYLOAD < d.length) :
    (d.take UDP_MAX_PAYLOAD).length = UDP_MAX_PAYLOAD ∧
    Receiver.next p (.datagram d src) =
      Receiver.next p (.datagram (d.take UDP_MAX_PAYLOAD) src) := by
  constructor
  · rw [List.length_take]
    omega
  · simp [Receiver.next, recvFrom, List.take_take]

/-- C10 witness: a 600-byte datagram is parsed exactly like its first 508
bytes (under the identity-like parser of the module tests). -/
theorem receiver_truncates_input_witness :
    (((List.replicate 600 7).take UDP_MAX_PAYLOAD).length = UDP_MAX_PAYLOAD) ∧
    Receiver.next (fun bytes _ => (Except.ok bytes : Except Unit (List Nat)))
        (.datagram (List.replicate 600 7) 1) =
      Receiver.next (fun bytes _ => .ok bytes)
        (.datagram ((List.replicate 600 7).take UDP_MAX_PAYLOAD) 1) :=
  receiver_truncates_input (fun bytes _ => .ok bytes) (List.replicate 600 7) 1
    (by rw [List.length_replicate]; norm_num [UDP_MAX_PAYLOAD])

/-- C1: parsing the serialization of any record (32-bit id, serialized
length within the 508-byte maximum payload) returns exactly the original
record. -/
theorem record_roundtrip (r : Record) (hid : r.id < 2 ^ 32)
    (hlen : r.to_udp.length ≤ UDP_MAX_PAYLOAD) :
    Record.from_udp r.to_udp = .ok r := by
  obtain ⟨id, data⟩ := r
  have hbuf : Record.to_udp ⟨id, data⟩ =
      id % 256 :: id / 256 % 256 :: id / 65536 % 256 :: id / 16777216 % 256 ::
        utf8Encode data := rfl
  have htake : (id % 256 :: id / 256 % 256 :: id / 65536 % 256 ::
      id / 16777216 % 256 :: utf8Encode data).take 4 =
      [id % 256, id / 256 % 256, id / 65536 % 256, id / 16777216 % 256] := rfl
  have hdrop : (id % 256 :: id / 256 % 256 :: id / 65536 % 256 ::
      id / 16777216 % 256 :: utf8Encode data).drop 4 = utf8Encode data := rfl
  have hfour : u32FromLeBytes [id % 256, id / 256 % 256, id / 65536 % 256,
      id / 16777216 % 256] = id := by
    show id % 256 + 256 * (id / 256 % 256) + 65536 * (id / 65536 % 256) +
      16777216 * (id / 16777216 % 256) = id
    have e1 : id / 256 / 256 = id / 65536 := by
      rw [Nat.div_div_eq_div_mul]
    have e2 : id / 65536 / 256 = id / 16777216 := by
      rw [Nat.div_div_eq_div_mul]
    have hid32 : id < 4294967296 := by simpa using hid
    omega
  rw [hbuf, Record.from_udp]
  rw [if_neg (by simp +arith [List.length_cons])]
  rw [htake, hdrop, utf8Decode_utf8Encode, hfour]

/-- C1 witness: the record `{id: 1, data: "r"}` of the module tests
round-trips. -/
theorem record_roundtrip_witness :
    Record.from_udp (Record.to_udp ⟨1, ['r']⟩) = .ok ⟨1, ['r']⟩ :=
  record_roundtrip ⟨1, ['r']⟩ (by norm_num) (by decide)

/-- C3: on any buffer of at least 4 bytes (bytes being values below 256),
`Record::from_udp` takes the first 4 bytes as a little-endian unsigned
32-bit id and decodes the rest as UTF-8: it succeeds exactly when the
remainder is valid UTF-8, yielding that id and the decoded text, and
otherwise fails with `ParseError::Invalid` carrying the decode failure. -/
theorem from_udp_long_buffer (buf : List Nat) (h4 : 4 ≤ buf.length)
    (hbytes : ∀ b ∈ buf, b < 256) :
    u32FromLeBytes (buf.take 4) < 2 ^ 32 ∧
    (∀ s, utf8Decode (buf.drop 4) = some s →
      Record.from_udp buf = .ok ⟨u32FromLeBytes (buf.take 4), s⟩) ∧
    (utf8Decode (buf.drop 4) = none →
      Record.from_udp buf = .error (.Invalid (buf.drop 4))) ∧
    ((∃ r, Record.from_udp buf = .ok r) ↔ (utf8Decode (buf.drop 4)).isSome) := by
  match buf with
  | [] => simp at h4
  | [_] => simp at h4
  | [_, _] => simp at h4
  | [_, _, _] => simp at h4
  | a :: b :: c :: d :: rest =>
    have hne : ¬ ((a :: b :: c :: d :: rest).length < 4) := by
      simp +arith [List.length_cons]
    have htake : (a :: b :: c :: d :: rest).take 4 = [a, b, c, d] := rfl
    have hdrop : (a :: b :: c :: d :: rest).drop 4 = rest := rfl
    refine ⟨?_, ?_, ?_, ?_⟩
    · have ha : a < 256 := hbytes a (by simp)
      have hb : b < 256 := hbytes b (by simp)
      have hc : c < 256 := hbytes c (by simp)
      have hd : d < 256 := hbytes d (by simp)
      rw [htake]
      show a + 256 * b + 65536 * c + 16777216 * d < 2 ^ 32
      have : (2 : Nat) ^ 32 = 4294967296 := by norm_num
      omega
    · intro s hs
      rw [hdrop] at hs
      rw [Record.from_udp, if_neg hne, htake, hdrop, hs]
    · intro hs
      rw [hdrop] at hs
      rw [Record.from_udp, if_neg hne, hdrop, hs]
    · rw [Record.from_udp, if_neg hne, hdrop]
      cases hu : utf8Decode rest <;> simp

/-- C3 witness: the test buffer `[1, 0, 0, 0, 0xC3, 0x28]` has an invalid
UTF-8 remainder and fails with `Invalid`. -/
theorem from_udp_long_buffer_witness :
    Record.from_udp [1, 0, 0, 0, 0xC3, 0x28] =
      .error (.Invalid [0xC3, 0x28]) :=
  (from_udp_long_buffer [1, 0, 0, 0, 0xC3, 0x28] (by decide)
    (by decide)).2.2.1 (by decide)

theorem sendItems_all_ok (ps : List (List Nat)) (net : Nat → Option Nat)
    (k : Nat) (h : ∀ j, j < ps.length → net (k + j) = none) :
    (sendItems ps net k).sent = ps.map truncateToMax ∧
    (sendItems ps net k).result = .ok () := by
  induction ps generalizing k with
  | nil => exact ⟨rfl, rfl⟩
  | cons p ps ih =>
    have hk : net k = none := by
      have := h 0 (by simp)
      simpa using this
    have hrest := ih (k + 1) (fun j hj => by
      have h2 := h (j + 1) (by simpa using Nat.succ_lt_succ hj)
      have e : k + 1 + j = k + (j + 1) := by omega
      rw [e]
      exact h2)
    simp only [sendItems, hk, List.map_cons]
    exact ⟨by rw [hrest.1], hrest.2⟩

theorem sendItems_first_fail (ps : List (List Nat)) (net : Nat → Option Nat)
    (k i : Nat) (e : Nat) (hi : i < ps.length) (he : net (k + i) = some e)
    (hbefore : ∀ j, j < i → net (k + j) = none) :
    (sendItems ps net k).sent = (ps.take i).map truncateToMax ∧
    (sendItems ps net k).result = .error e := by
  induction ps generalizing k i with
  | nil => simp at hi
  | cons p ps ih =>
    match i with
    | 0 =>
      have hk : net k = some e := by simpa using he
      refine ⟨?_, ?_⟩ <;> simp [sendItems, hk]
    | i + 1 =>
      have hk : net k = none := by
        have := hbefore 0 (by omega)
        simpa using this
      have hrest := ih (k + 1) i (by simpa using Nat.lt_of_succ_lt_succ hi)
        (by
          have : k + 1 + i = k + (i + 1) := by omega
          rw [this]
          exact he)
        (fun j hj => by
          have : k + 1 + j = k + (j + 1) := by omega
          rw [this]
          exact hbefore (j + 1) (by omega))
      simp only [sendItems, hk, List.take_succ_cons, List.map_cons]
      exact ⟨by rw [hrest.1], hrest.2⟩

/-- C5: `Sender::send` (on a successfully associated socket, with the
transmission accepted by the OS) sends a record whose serialization
exceeds 508 bytes as a datagram of exactly 508 bytes -- the first 508
bytes of the full serialization -- together with one warning notification;
a record whose serialization fits is transmitted unmodified with no
warning. -/
theorem sender_send_truncation {α : Type} (to_udp : α → List Nat) (x : α)
    (net : Nat → Option Nat) (hnet : net 0 = none) :
    (UDP_MAX_PAYLOAD < (to_udp x).length →
      Sender.send to_udp [x] none net =
        ⟨[(to_udp x).take UDP_MAX_PAYLOAD], 1, .ok ()⟩ ∧
      ((to_udp x).take UDP_MAX_PAYLOAD).length = UDP_MAX_PAYLOAD) ∧
    ((to_udp x).length ≤ UDP_MAX_PAYLOAD →
      Sender.send to_udp [x] none net = ⟨[to_udp x], 0, .ok ()⟩) := by
  constructor
  · intro hbig
    constructor
    · simp only [Sender.send, List.map_cons, List.map_nil, sendItems, hnet,
        truncateToMax, if_pos hbig]
    · rw [List.length_take]
      omega
  · intro hsmall
    have hnotbig : ¬ (UDP_MAX_PAYLOAD < (to_udp x).length) := by omega
    simp only [Sender.send, List.map_cons, List.map_nil, sendItems, hnet,
      truncateToMax, if_neg hnotbig]

/-- C5 witness: a record serializing to 600 bytes is sent as its first 508
bytes with one warning; the 600-byte payload is the identity serialization
of the test module's `DummyData`. -/
theorem sender_send_truncation_witness :
    Sender.send (fun p : List Nat => p) [List.replicate 600 7] none
        (fun _ => none) =
      ⟨[(List.replicate 600 7).take UDP_MAX_PAYLOAD], 1, .ok ()⟩ :=
  ((sender_send_truncation (fun p : List Nat => p) (List.replicate 600 7)
    (fun _ => none) rfl).1
    (by rw [List.length_replicate]; norm_num [UDP_MAX_PAYLOAD])).1

/-- C6: `Sender::send` attempts one datagram per record in presentation
order: if the OS accepts every transmission the result is `Ok` and the
transmitted sequence is exactly the (truncated) serializations in order;
if the `i`-th transmission is the first to fail, `send` returns that error
and exactly the records before index `i` have been transmitted. -/
theorem sender_send_order {α : Type} (to_udp : α → List Nat)
    (items : List α) (net : Nat → Option Nat) :
    ((∀ j, j < items.length → net j = none) →
      (Sender.send to_udp items none net).sent =
        items.map (fun x => truncateToMax (to_udp x)) ∧
      (Sender.send to_udp items none net).result = .ok ()) ∧
    (∀ i e, i < items.length → net i = some e → (∀ j, j < i → net j = none) →
      (Sender.send to_udp items none net).sent =
        (items.take i).map (fun x => truncateToMax (to_udp x)) ∧
      (Sender.send to_udp items none net).result = .error e) := by
  constructor
  · intro h
    have := sendItems_all_ok (items.map to_udp) net 0
      (fun j hj => by simpa using h j (by simpa using hj))
    simpa [Sender.send, List.map_map, Function.comp] using this
  · intro i e hi he hbefore
    have := sendItems_first_fail (items.map to_udp) net 0 i e
      (by simpa using hi) (by simpa using he)
      (fun j hj => by simpa using hbefore j hj)
    simpa [Sender.send, List.map_map, List.map_take, Function.comp] using this

/-- C6 witness: with three one-byte records and the second transmission
failing with error 9, exactly the first record is sent and the error is
returned. -/
theorem sender_send_order_witness :
    (Sender.send (fun p : List Nat => p) [[1], [2], [3]] none
      (fun k => if k = 1 then some 9 else none)).sent = [[1]] ∧
    (Sender.send (fun p : List Nat => p) [[1], [2], [3]] none
      (fun k => if k = 1 then some 9 else none)).result = .error 9 := by
  have h := (sender_send_order (fun p : List Nat => p) [[1], [2], [3]]
    (fun k => if k = 1 then some 9 else none)).2 1 9 (by decide) (by decide)
    (fun j hj => by
      match j, hj with
      | 0, _ => rfl)
  simpa [truncateToMax, UDP_MAX_PAYLOAD] using h
